import Mathlib

/-!
P4Frame media slideshow: a shallow embedding of the sequencing, tiling and
scanning code of media_frame.py, slideshow_lib.py and video_player_lib.py,
with theorems checking the specification claims against it.

Python strings are embedded as lists of characters, Python ints as Int (or
as Nat where the source value is visibly non-negative), float division
followed by int() truncation on non-negative values as Nat division, and
the // floor division of Python as Int.fdiv.
-/

namespace P4Frame

/-- A file name or path, as the list of its characters (Python compares and
matches strings code point by code point). -/
abbrev FileName := List Char

/-- Configuration values drawn from config.py: DISPLAY, SLIDESHOW, SYSTEM
and MEMORY_MANAGEMENT entries used by MediaFrame, plus a model of
os.path.exists for video paths (the state of the file system at play time). -/
structure Config where
  batchSize : Nat
  maxCacheSize : Nat
  screenWidth : Nat
  screenHeight : Nat
  borderSize : Nat
  borderHeight : Nat
  adaptiveTopHeight : Nat
  videoEnabled : Bool
  keyDebounceTime : Rat
  fileExists : FileName → Bool

/-- A source photo as the tiler sees it: pixel dimensions plus the optional
EXIF orientation tag value. Pixel contents stay outside the embedding; every
step of create_combined_images relevant to the claims depends only on the
dimensions. -/
structure SrcImage where
  width : Nat
  height : Nat
  orientation : Option Nat
deriving DecidableEq, Repr

/-- slideshow_lib.correct_orientation: rotate by the EXIF orientation tag
(value 3 is 180 degrees, 6 is 270, 8 is 90). At the dimension level a 180
degree rotation keeps the size and the two quarter turns swap width and
height; any other tag value leaves the image untouched. -/
def correct_orientation (img : SrcImage) : SrcImage :=
  match img.orientation with
  | some 3 => img
  | some 6 => { img with width := img.height, height := img.width }
  | some 8 => { img with width := img.height, height := img.width }
  | _ => img

/-- The scaled width computed in create_combined_images: the image is scaled
to height screen_height - 2 * border_height preserving aspect ratio, the
width truncated to a whole pixel, int(img_width * scaled_height / img_height). -/
def scaled_width (screenHeight borderHeight : Nat) (img : SrcImage) : Nat :=
  let img := correct_orientation img
  img.width * (screenHeight - 2 * borderHeight) / img.height

/-- The loop state of the first phase of create_combined_images: closedRows
is the combined_images list of (row, row width) pairs, currentRow is
current_image_row (each scaled image represented by its width), currentWidth
is current_width. current_width is an Int because Python lets it go negative
(current_width -= border_size while the row is still empty). -/
structure PackState where
  closedRows : List (List Nat × Int)
  currentRow : List Nat
  currentWidth : Int
deriving DecidableEq, Repr

/-- One iteration of the row-packing loop of create_combined_images: the
image joins the current row when current_width + scaled_width +
len(current_image_row) * border_size fits in screen_width, otherwise the
current row closes (minus one trailing border) and a fresh row starts. -/
def pack_step (screenWidth borderSize : Nat) (st : PackState) (w : Nat) : PackState :=
  if st.currentWidth + (w : Int) + ((st.currentRow.length * borderSize : Nat) : Int) ≤ (screenWidth : Int) then
    { st with
      currentRow := st.currentRow ++ [w],
      currentWidth := st.currentWidth + (w : Int) + (borderSize : Int) }
  else
    { closedRows := st.closedRows ++ [(st.currentRow, st.currentWidth - (borderSize : Int))],
      currentRow := [w],
      currentWidth := (w : Int) + (borderSize : Int) }

/-- The whole packing phase of create_combined_images, with the final flush
of a non-empty open row. -/
def pack_rows (screenWidth borderSize : Nat) (ws : List Nat) : List (List Nat × Int) :=
  let st := ws.foldl (pack_step screenWidth borderSize) ⟨[], [], 0⟩
  if st.currentRow.isEmpty then st.closedRows
  else st.closedRows ++ [(st.currentRow, st.currentWidth - (borderSize : Int))]

/-- The even horizontal margin of the second phase of create_combined_images:
(screen_width - total_image_width) // num_gaps with num_gaps = len(row) + 1.
Python // is floor division, Int.fdiv. -/
def even_border_width (screenWidth : Nat) (rowImages : List Nat) : Int :=
  ((screenWidth : Int) - (rowImages.sum : Int)).fdiv ((rowImages.length : Int) + 1)

/-- One composite canvas: the fixed canvas size, the scaled images of its row
(each by its width), the x offset each image is pasted at, the shared y
offset, and the value of x_offset after the paste loop. -/
structure Canvas where
  width : Nat
  height : Nat
  images : List Nat
  pasteOffsets : List Int
  topOffset : Nat
  finalOffset : Int
deriving DecidableEq, Repr

/-- The paste loop of the second phase of create_combined_images: x_offset
starts at the even margin and each pasted image advances it by its width
plus the margin. -/
def paint_row (screenWidth screenHeight adaptiveTopHeight : Nat) (rowImages : List Nat) : Canvas :=
  let m := even_border_width screenWidth rowImages
  let acc := rowImages.foldl
    (fun (a : List Int × Int) (w : Nat) => (a.1 ++ [a.2], a.2 + (w : Int) + m)) ([], m)
  ⟨screenWidth, screenHeight, rowImages, acc.1, adaptiveTopHeight, acc.2⟩

/-- slideshow_lib.create_combined_images at the dimension level: scale every
photo, pack rows greedily, paint one canvas per closed row. The timestamp
overlay copies the scaled image at the same size, so it changes no
dimension and is dropped from the embedding. -/
def create_combined_images (screenWidth screenHeight borderSize borderHeight adaptiveTopHeight : Nat)
    (imageFiles : List SrcImage) : List Canvas :=
  (pack_rows screenWidth borderSize (imageFiles.map (scaled_width screenHeight borderHeight))).map
    (fun rw => paint_row screenWidth screenHeight adaptiveTopHeight rw.1)

/-- One entry of the media queue: a photo canvas or a video path (the source
uses the tag strings photo and video). -/
inductive MediaEntry (C V : Type) where
  | photo (canvas : C)
  | video (path : V)
deriving DecidableEq, Repr

/-- MediaFrame.create_media_queue: for every i below
max(len(photo_groups), len(videos)) append photo_groups[i] when present and
then videos[i] when present. -/
def create_media_queue {C V : Type} (photoGroups : List C) (videos : List V) :
    List (MediaEntry C V) :=
  (List.range (max photoGroups.length videos.length)).flatMap fun i =>
    (match photoGroups[i]? with
     | some c => [MediaEntry.photo c]
     | none => []) ++
    (match videos[i]? with
     | some v => [MediaEntry.video v]
     | none => [])

/-- video_player_lib.alternating_media_generator: yields the image entry and
then the video entry at every index below the longer length, the same
alternation as create_media_queue. -/
def alternating_media_generator {C V : Type} (imageFiles : List C) (videoFiles : List V) :
    List (MediaEntry C V) :=
  (List.range (max imageFiles.length videoFiles.length)).flatMap fun i =>
    (match imageFiles[i]? with
     | some c => [MediaEntry.photo c]
     | none => []) ++
    (match videoFiles[i]? with
     | some v => [MediaEntry.video v]
     | none => [])

/-- The strict photo/video alternation as a structural recursion, used to
state the corrected form of claim C1. -/
def interleave_entries {C V : Type} : List C → List V → List (MediaEntry C V)
  | [], [] => []
  | [], v :: vs => .video v :: interleave_entries [] vs
  | c :: cs, [] => .photo c :: interleave_entries cs []
  | c :: cs, v :: vs => .photo c :: .video v :: interleave_entries cs vs

/-- config.MEDIA supported_image_formats. -/
def supported_image_formats : List FileName :=
  [".jpg".data, ".jpeg".data, ".png".data, ".bmp".data, ".gif".data]

/-- config.MEDIA supported_video_formats. -/
def supported_video_formats : List FileName :=
  [".mp4".data, ".avi".data, ".mov".data, ".mkv".data, ".wmv".data, ".flv".data,
   ".webm".data, ".m4v".data]

/-- Python str.lower, character by character. -/
def lower_name (f : FileName) : FileName := f.map Char.toLower

/-- Python f.endswith(tupleOfExtensions): some extension of the set is a
suffix of f. -/
def ends_with_any (exts : List FileName) (f : FileName) : Bool :=
  exts.any fun e => List.isSuffixOf e f

/-- Python f.startswith(single dot). -/
def starts_with_dot (f : FileName) : Bool :=
  match f with
  | [] => false
  | c :: _ => c == '.'

/-- The filter of slideshow_lib.get_image_files:
f.lower().endswith(supported_image_formats) and not f.lower().startswith(dot). -/
def is_image_file (f : FileName) : Bool :=
  ends_with_any supported_image_formats (lower_name f) && !(starts_with_dot (lower_name f))

/-- os.path.join of a directory and a relative file name. -/
def path_join (dir f : FileName) : FileName := dir ++ '/' :: f

/-- slideshow_lib.get_image_files: the matching entries of os.listdir joined
to the directory, in listing order (the source applies no sort here). -/
def get_image_files (directory : FileName) (listing : List FileName) : List FileName :=
  (listing.filter is_image_file).map (path_join directory)

/-- Code point lexicographic order on file names, the order Python sorted
uses on strings. -/
def lex_le : FileName → FileName → Bool
  | [], _ => true
  | _ :: _, [] => false
  | a :: as, b :: bs =>
    if a.toNat < b.toNat then true
    else if b.toNat < a.toNat then false
    else lex_le as bs

/-- The filter of MediaFrame.get_video_files:
file.lower().endswith(supported_video_formats) and not file.startswith(dot)
(here the dotfile test reads the original name, not the lowered one). -/
def is_video_file (f : FileName) : Bool :=
  ends_with_any supported_video_formats (lower_name f) && !(starts_with_dot f)

/-- config.VIDEO_CONVERSION converted_subfolder. -/
def converted_subfolder : FileName := "converted".data

/-- MediaFrame.get_video_files: an empty list when the converted directory
does not exist (listing = none), otherwise the matching entries joined to
media_dir/converted and returned sorted. -/
def get_video_files (mediaDir : FileName) (convertedListing : Option (List FileName)) :
    List FileName :=
  match convertedListing with
  | none => []
  | some files =>
    List.insertionSort (fun a b => lex_le a b = true)
      ((files.filter is_video_file).map (path_join (path_join mediaDir converted_subfolder)))

/-- The mutable fields of video_player_lib.VideoPlayer consulted or written
by play_video. -/
structure PlayerState where
  currentVideo : Option FileName
  hasOnComplete : Bool
  preloadedPath : Option FileName
  preloadedReady : Bool
  preloadedMediaSet : Bool
  preloadedFrameSize : Option (Nat × Nat)
deriving DecidableEq, Repr

/-- The externally visible synchronous effects of one play_video call. -/
inductive PlayAction where
  | invokeOnComplete
  | resumePreloaded
  | engineStart
deriving DecidableEq, Repr

/-- VideoPlayer.play_video. pathExists models os.path.exists(video_path).
engineOpens models whether the external engine could actually open the
file, an input the code never consults (media parsing and play are invoked
with no error check, so it cannot influence the result). hasCallback says
whether an on_complete argument was supplied. The second component lists
the synchronous effects: the immediate callback invocation on a missing
path, resuming a preloaded and paused video, or a plain engine start. -/
def play_video (pathExists engineOpens hasCallback : Bool) (videoPath : FileName)
    (ps : PlayerState) : PlayerState × List PlayAction :=
  if !pathExists then
    (ps, if hasCallback then [PlayAction.invokeOnComplete] else [])
  else
    let ps1 := { ps with currentVideo := some videoPath, hasOnComplete := hasCallback }
    if ps1.preloadedPath == some videoPath && ps1.preloadedReady && ps1.preloadedMediaSet
        && ps1.preloadedFrameSize.isSome then
      ({ ps1 with preloadedPath := none, preloadedReady := false,
                  preloadedMediaSet := false, preloadedFrameSize := none },
       [PlayAction.resumePreloaded])
    else
      (ps1, [PlayAction.engineStart])

/-- The sequencing state of a MediaFrame: the discovered media lists, the
running canvas collection, the batch cursor, the media queue, the playback
cursor, the key debounce timestamp and the entry on screen. -/
structure FrameState where
  allImageFiles : List SrcImage
  videoFiles : List FileName
  combinedImages : List Canvas
  currentBatchIndex : Nat
  mediaQueue : List (MediaEntry Canvas FileName)
  currentIndex : Nat
  lastKeyTime : Rat
  displayed : Option (MediaEntry Canvas FileName)
deriving DecidableEq

/-- The batch slice of MediaFrame.process_next_batch:
all_image_files[start_idx : start_idx + batch_size]. -/
def batch_slice (cfg : Config) (s : FrameState) : List SrcImage :=
  (s.allImageFiles.drop (s.currentBatchIndex * cfg.batchSize)).take cfg.batchSize

/-- The Python slice lst[-n:]: the last n entries when n is at least 1, but
the whole list when n = 0 (minus zero is plain zero, so [-0:] is [0:]). -/
def py_slice_last {α : Type} (n : Nat) (l : List α) : List α :=
  if n = 0 then l else l.drop (l.length - n)

/-- MediaFrame.manage_batch_cache: once combined_images exceeds
max_cache_size * 3 entries, keep only the last max_cache_size * 3 of them. -/
def manage_batch_cache (cfg : Config) (s : FrameState) : FrameState :=
  let maxCombined := cfg.maxCacheSize * 3
  if s.combinedImages.length > maxCombined then
    { s with combinedImages := py_slice_last maxCombined s.combinedImages }
  else s

/-- MediaFrame.process_next_batch: tile the current batch slice, append the
canvases to combined_images and evict the oldest via manage_batch_cache; the
Bool is the returned len(batch_files) > 0. An empty slice changes nothing. -/
def process_next_batch (cfg : Config) (s : FrameState) : FrameState × Bool :=
  let batchFiles := batch_slice cfg s
  if batchFiles.isEmpty then (s, false)
  else
    (manage_batch_cache cfg
      { s with combinedImages :=
          s.combinedImages ++ (create_combined_images cfg.screenWidth cfg.screenHeight
            cfg.borderSize cfg.borderHeight cfg.adaptiveTopHeight batchFiles) },
     true)

/-- MediaFrame.create_media_queue applied to the frame state. -/
def rebuild_queue (s : FrameState) : FrameState :=
  { s with mediaQueue := create_media_queue s.combinedImages s.videoFiles }

/-- The boundary handling block of MediaFrame.show_next_media (the branch
taken when current_index >= len(media_queue)): advance current_batch_index,
wrap it to 0 when current_batch_index * batch_size >= len(all_image_files),
load the next batch, then either rebuild the queue and reset the cursor
(batch non-empty) or just reset the cursor (batch empty, existing queue kept). -/
def rollover_step (cfg : Config) (s : FrameState) : FrameState :=
  let b1 := s.currentBatchIndex + 1
  let b2 := if b1 * cfg.batchSize ≥ s.allImageFiles.length then 0 else b1
  let s1 := { s with currentBatchIndex := b2 }
  match process_next_batch cfg s1 with
  | (s2, true) => { rebuild_queue s2 with currentIndex := 0 }
  | (s2, false) => { s2 with currentIndex := 0 }

/-- Modelled on the wording of the spec (boundary handling plus rollover
policy): advance batchIndex, wrap it to 0 exactly at the threshold
batchIndex * batchSize >= totalPhotoCount, invoke the Batch Loader and
rebuild the queue with the cursor reset; when the loaded batch is empty,
wrap batchIndex to 0 and retry once, else keep cycling the existing queue.
Stated next to rollover_step for the refinement claim C3. -/
def spec_rollover_step (cfg : Config) (s : FrameState) : FrameState :=
  let b1 := s.currentBatchIndex + 1
  let b2 := if b1 * cfg.batchSize ≥ s.allImageFiles.length then 0 else b1
  let s1 := { s with currentBatchIndex := b2 }
  match process_next_batch cfg s1 with
  | (s2, true) => { rebuild_queue s2 with currentIndex := 0 }
  | (s2, false) =>
    let s3 := { s2 with currentBatchIndex := 0 }
    match process_next_batch cfg s3 with
    | (s4, true) => { rebuild_queue s4 with currentIndex := 0 }
    | (s4, false) => { s4 with currentIndex := 0 }

/-- MediaFrame.show_next_media: nothing on an empty queue. The halfway
preload check evaluates current_index mod (batch_size floor-div 2) whenever
current_index > 0; with batch_size at most 1 that divisor is zero and Python
raises ZeroDivisionError before anything changed, otherwise the check only
starts a logging thread. Then the boundary handling runs when the cursor is
past the end, and the entry at the cursor is displayed with the cursor
advanced by one afterwards. A photo is shown via show_photo (a working
path). A video with the player enabled goes to show_video and play_video:
when its file exists the engine starts and the completion callback stays
asynchronous; when the file is missing, play_video synchronously invokes
the on_complete callback, which is show_next_media itself, re-entering on
the same cursor without bound — the resulting RecursionError aborts every
pending cursor increment, leaving the state as mutated so far. A video with
the player disabled is skipped: the cursor advances, a quick re-entry is
scheduled, nothing is displayed. An out-of-range access, which Python would
turn into an uncaught IndexError from the queue indexing, also leaves the
state as mutated so far. -/
def show_next_media (cfg : Config) (s : FrameState) : FrameState :=
  if s.mediaQueue.isEmpty then s
  else if 0 < s.currentIndex ∧ cfg.batchSize / 2 = 0 then s
  else
    let s := if s.currentIndex ≥ s.mediaQueue.length then rollover_step cfg s else s
    if h : s.currentIndex < s.mediaQueue.length then
      match s.mediaQueue[s.currentIndex] with
      | MediaEntry.photo c =>
        { s with displayed := some (MediaEntry.photo c), currentIndex := s.currentIndex + 1 }
      | MediaEntry.video v =>
        if cfg.videoEnabled then
          if cfg.fileExists v then
            { s with displayed := some (MediaEntry.video v),
                     currentIndex := s.currentIndex + 1 }
          else s
        else
          { s with currentIndex := s.currentIndex + 1 }
    else s

/-- MediaFrame.navigate_next: advance the cursor and let show_next_media
display there and advance again. -/
def navigate_next (cfg : Config) (s : FrameState) : FrameState :=
  show_next_media cfg { s with currentIndex := s.currentIndex + 1 }

/-- The cursor arithmetic of MediaFrame.navigate_previous: decrement, wrap a
negative cursor to the end of the queue, clamp a past-the-end cursor to the
end. Python works on a signed int, embedded via Int with the final value
brought back to Nat. -/
def prev_wrap_clamp (queueLength idx : Nat) : Nat :=
  let i : Int := (idx : Int) - 1
  let i := if i < 0 then (if queueLength = 0 then 0 else (queueLength : Int) - 1) else i
  let i := if i ≥ (queueLength : Int) then (if queueLength = 0 then 0 else (queueLength : Int) - 1) else i
  i.toNat

/-- MediaFrame.show_media_at_index_with_auto_advance: reset a past-the-end
cursor to 0, then handle the entry at the cursor. The photo branch unpacks
the payload, pil_image comma underscore = media_item, but the payload is a
single PIL image (create_media_queue stores the image itself), so Python
raises TypeError there, before the cursor increment: the state as mutated
so far persists and nothing new is displayed. A video whose file exists is
shown with the cursor advanced by one (play_video re-checks the same
existing path, starts the engine and keeps the callback asynchronous); a
video whose file vanished advances the cursor, schedules a re-entry and
displays nothing. -/
def show_media_at_index_with_auto_advance (cfg : Config) (s : FrameState) : FrameState :=
  if s.mediaQueue.isEmpty then s
  else
    let s := if s.currentIndex ≥ s.mediaQueue.length then { s with currentIndex := 0 } else s
    if h : s.currentIndex < s.mediaQueue.length then
      match s.mediaQueue[s.currentIndex] with
      | MediaEntry.photo _ => s
      | MediaEntry.video v =>
        if cfg.fileExists v then
          { s with displayed := some (MediaEntry.video v), currentIndex := s.currentIndex + 1 }
        else
          { s with currentIndex := s.currentIndex + 1 }
    else s

/-- MediaFrame.navigate_previous: recreate an empty queue (and give up when
it stays empty), move the cursor back with wraparound and clamping, then
show the entry there with auto advance. -/
def navigate_previous (cfg : Config) (s : FrameState) : FrameState :=
  let s := if s.mediaQueue.isEmpty then rebuild_queue s else s
  if s.mediaQueue.isEmpty then s
  else
    show_media_at_index_with_auto_advance cfg
      { s with currentIndex := prev_wrap_clamp s.mediaQueue.length s.currentIndex }

/-- MediaFrame.on_volume_up: drop the event inside the debounce window,
otherwise record its time and navigate forward. -/
def on_volume_up (cfg : Config) (now : Rat) (s : FrameState) : FrameState :=
  if now - s.lastKeyTime < cfg.keyDebounceTime then s
  else navigate_next cfg { s with lastKeyTime := now }

/-- MediaFrame.on_volume_down: drop the event inside the debounce window,
otherwise record its time and navigate backward. -/
def on_volume_down (cfg : Config) (now : Rat) (s : FrameState) : FrameState :=
  if now - s.lastKeyTime < cfg.keyDebounceTime then s
  else navigate_previous cfg { s with lastKeyTime := now }

/-- One sequencing event: an explicit next, an explicit previous, or the
auto-advance timer firing show_next_media (which also performs the boundary
rollover). -/
inductive NavOp where
  | next
  | previous
  | tick
deriving DecidableEq, Repr

/-- Apply one sequencing event to the frame state. -/
def apply_op (cfg : Config) (s : FrameState) : NavOp → FrameState
  | NavOp.next => navigate_next cfg s
  | NavOp.previous => navigate_previous cfg s
  | NavOp.tick => show_next_media cfg s

/-- Run a finite sequence of sequencing events. -/
def run_ops (cfg : Config) (ops : List NavOp) (s : FrameState) : FrameState :=
  ops.foldl (apply_op cfg) s

/-! Queue building: create_media_queue realises the strict alternation. -/

lemma range_flatMap_succ {β : Type} (n : Nat) (f : Nat → List β) :
    (List.range (n + 1)).flatMap f = f 0 ++ (List.range n).flatMap (fun i => f (i + 1)) := by
  rw [List.range_succ_eq_map]
  simp [List.flatMap_map, Function.comp]

lemma create_media_queue_nil_left {C V : Type} (vs : List V) :
    create_media_queue ([] : List C) vs = vs.map MediaEntry.video := by
  induction vs with
  | nil => rfl
  | cons v vs ih =>
    unfold create_media_queue at ih ⊢
    simp only [List.length_nil, List.length_cons, Nat.max_eq_right (Nat.zero_le _)] at ih ⊢
    rw [range_flatMap_succ]
    simp only [List.getElem?_nil, List.getElem?_cons_zero, List.getElem?_cons_succ,
      List.nil_append, List.map_cons] at ih ⊢
    rw [ih, List.singleton_append]

lemma create_media_queue_nil_right {C V : Type} (cs : List C) :
    create_media_queue cs ([] : List V) = cs.map MediaEntry.photo := by
  induction cs with
  | nil => rfl
  | cons c cs ih =>
    unfold create_media_queue at ih ⊢
    simp only [List.length_nil, List.length_cons, Nat.max_eq_left (Nat.zero_le _)] at ih ⊢
    rw [range_flatMap_succ]
    simp only [List.getElem?_nil, List.getElem?_cons_zero, List.getElem?_cons_succ,
      List.append_nil, List.map_cons] at ih ⊢
    rw [ih, List.singleton_append]

lemma interleave_entries_nil_left {C V : Type} (vs : List V) :
    interleave_entries ([] : List C) vs = vs.map MediaEntry.video := by
  induction vs with
  | nil => simp [interleave_entries]
  | cons v vs ih => simp [interleave_entries, ih]

lemma interleave_entries_nil_right {C V : Type} (cs : List C) :
    interleave_entries cs ([] : List V) = cs.map MediaEntry.photo := by
  induction cs with
  | nil => simp [interleave_entries]
  | cons c cs ih => simp [interleave_entries, ih]

lemma create_media_queue_eq_interleave {C V : Type} (cs : List C) (vs : List V) :
    create_media_queue cs vs = interleave_entries cs vs := by
  induction cs generalizing vs with
  | nil => rw [create_media_queue_nil_left, interleave_entries_nil_left]
  | cons c cs ih =>
    cases vs with
    | nil => rw [create_media_queue_nil_right, interleave_entries_nil_right]
    | cons v vs =>
      unfold create_media_queue
      simp only [List.length_cons, Nat.succ_max_succ]
      rw [range_flatMap_succ]
      simp only [List.getElem?_cons_zero, List.getElem?_cons_succ]
      rw [show ((List.range (max cs.length vs.length)).flatMap fun i =>
            (match cs[i]? with
             | some c => [MediaEntry.photo c]
             | none => []) ++
            (match vs[i]? with
             | some v => [MediaEntry.video v]
             | none => ([] : List (MediaEntry C V)))) = create_media_queue cs vs from rfl]
      rw [ih]
      simp [interleave_entries]

/-- C1: the claim asserts that the queue holds all canvases of the current
batch as Photo entries, in order, followed by exactly one Video entry
videoFiles[batchIndex mod len(videoFiles)]. It fails on the code: with
canvases [0, 1] and videos [10, 11] (any batchIndex, here 0) the claimed
queue would be photo 0, photo 1, video 10, but create_media_queue
interleaves and enqueues every video: photo 0, video 10, photo 1, video 11. -/
theorem media_queue_not_photos_then_one_video :
    create_media_queue [0, 1] [10, 11] ≠
      [MediaEntry.photo 0, MediaEntry.photo 1, MediaEntry.video 10] := by
  decide

/-- C1 (amended): the queue built by MediaFrame.create_media_queue, and
equally by alternating_media_generator, strictly alternates: photo i then
video i for every index below the longer length, continuing with the
remainder of the longer list. Every video is enqueued on every rebuild;
the batch index selects nothing. -/
theorem media_queue_alternates {C V : Type} (canvases : List C) (videos : List V) :
    create_media_queue canvases videos = interleave_entries canvases videos
    ∧ alternating_media_generator canvases videos = interleave_entries canvases videos := by
  constructor
  · exact create_media_queue_eq_interleave canvases videos
  · rw [show alternating_media_generator canvases videos
        = create_media_queue canvases videos from rfl]
    exact create_media_queue_eq_interleave canvases videos

/-! Row packing: the loop invariant of the first phase of
create_combined_images. -/

/-- The packing loop invariant: current_width agrees with the open row
(every accepted image contributed its width plus one border), every closed
or open row either holds at most one image or fits with room for twice the
inter-image borders, and an image wider than the screen only ever sits in a
row of its own. -/
def PackInv (screenWidth borderSize : Nat) (st : PackState) : Prop :=
  st.currentWidth = ((st.currentRow.sum + st.currentRow.length * borderSize : Nat) : Int)
  ∧ (st.currentRow.length ≤ 1
      ∨ st.currentRow.sum + 2 * borderSize * (st.currentRow.length - 1) ≤ screenWidth)
  ∧ (∀ w ∈ st.currentRow, screenWidth < w → st.currentRow = [w])
  ∧ (∀ p ∈ st.closedRows,
      (p.1.length ≤ 1 ∨ p.1.sum + 2 * borderSize * (p.1.length - 1) ≤ screenWidth)
      ∧ (∀ w ∈ p.1, screenWidth < w → p.1 = [w]))

/-- All images held by a packing state, closed rows first, in order. -/
def rows_flat (st : PackState) : List Nat :=
  (st.closedRows.map Prod.fst).flatten ++ st.currentRow

lemma pack_step_inv (W b : Nat) (st : PackState) (w : Nat) (h : PackInv W b st) :
    PackInv W b (pack_step W b st w)
    ∧ rows_flat (pack_step W b st w) = rows_flat st ++ [w] := by
  obtain ⟨hcw, hbound, hover, hclosed⟩ := h
  unfold pack_step
  by_cases hfit : st.currentWidth + (w : Int) + ((st.currentRow.length * b : Nat) : Int) ≤ (W : Int)
  · rw [if_pos hfit]
    have hfitN : st.currentRow.sum + w + 2 * b * st.currentRow.length ≤ W := by
      rw [hcw] at hfit
      push_cast at hfit
      nlinarith [hfit]
    refine ⟨⟨?_, ?_, ?_, hclosed⟩, ?_⟩
    · simp only [List.sum_append, List.length_append, List.sum_cons, List.sum_nil,
        List.length_cons, List.length_nil]
      rw [hcw]
      push_cast
      ring
    · right
      simp only [List.sum_append, List.length_append, List.sum_cons, List.sum_nil,
        List.length_cons, List.length_nil]
      have : st.currentRow.length + (0 + 1) - 1 = st.currentRow.length := by omega
      rw [this]
      omega
    · intro x hx hWx
      exfalso
      rcases List.mem_append.mp hx with hx | hx
      · have hrow := hover x hx hWx
        have hlen : st.currentRow.length = 1 := by rw [hrow]; rfl
        have hsum : st.currentRow.sum = x := by rw [hrow]; simp
        omega
      · have : x = w := by simpa using hx
        subst this
        omega
    · simp [rows_flat, List.append_assoc]
  · rw [if_neg hfit]
    refine ⟨⟨?_, ?_, ?_, ?_⟩, ?_⟩
    · simp
    · left; rfl
    · intro x hx _
      have : x = w := by simpa using hx
      subst this
      rfl
    · intro p hp
      rcases List.mem_append.mp hp with hp | hp
      · exact hclosed p hp
      · have : p = (st.currentRow, st.currentWidth - (b : Int)) := by simpa using hp
        subst this
        exact ⟨hbound, hover⟩
    · simp [rows_flat, List.append_assoc]

lemma pack_loop_inv (W b : Nat) (ws : List Nat) :
    ∀ (st : PackState), PackInv W b st →
      PackInv W b (ws.foldl (pack_step W b) st)
      ∧ rows_flat (ws.foldl (pack_step W b) st) = rows_flat st ++ ws := by
  induction ws with
  | nil => intro st h; exact ⟨h, by simp⟩
  | cons w ws ih =>
    intro st h
    obtain ⟨h1, h2⟩ := pack_step_inv W b st w h
    obtain ⟨h3, h4⟩ := ih (pack_step W b st w) h1
    refine ⟨h3, ?_⟩
    rw [List.foldl_cons] at *
    rw [h4, h2, List.append_assoc]
    rfl

lemma pack_rows_props (W b : Nat) (ws : List Nat) :
    (∀ r ∈ (pack_rows W b ws).map Prod.fst,
      (r.length ≤ 1 ∨ r.sum + 2 * b * (r.length - 1) ≤ W)
      ∧ (∀ w ∈ r, W < w → r = [w]))
    ∧ ((pack_rows W b ws).map Prod.fst).flatten = ws := by
  have hinit : PackInv W b ⟨[], [], 0⟩ := by
    refine ⟨by simp, Or.inl (by simp), ?_, ?_⟩
    · intro w hw; simp at hw
    · intro p hp; simp at hp
  obtain ⟨⟨hcw, hbound, hover, hclosed⟩, hflat⟩ := pack_loop_inv W b ws ⟨[], [], 0⟩ hinit
  set st := ws.foldl (pack_step W b) ⟨[], [], 0⟩ with hst
  unfold pack_rows
  rw [← hst]
  by_cases hrow : st.currentRow.isEmpty
  · rw [if_pos hrow]
    have hempty : st.currentRow = [] := List.isEmpty_iff.mp hrow
    constructor
    · intro r hr
      obtain ⟨p, hp, hpr⟩ := List.mem_map.mp hr
      exact hpr ▸ hclosed p hp
    · have := hflat
      unfold rows_flat at this
      rw [hempty, List.append_nil] at this
      simpa using this
  · rw [if_neg hrow]
    constructor
    · intro r hr
      rw [List.map_append] at hr
      rcases List.mem_append.mp hr with hr | hr
      · obtain ⟨p, hp, hpr⟩ := List.mem_map.mp hr
        exact hpr ▸ hclosed p hp
      · have : r = st.currentRow := by simpa using hr
        subst this
        exact ⟨hbound, hover⟩
    · have := hflat
      unfold rows_flat at this
      rw [List.map_append, List.flatten_append]
      simpa using this

/-- C4: as stated, the claim asserts every produced row fits within the
canvas width, sum + border * (count - 1) <= screenWidth; the packing of the
single photo list whose scaled width is 3000 on a 1920 canvas with border 30
produces the one-element row [3000], whose width 3000 exceeds 1920 by far
more than rounding. -/
theorem row_packing_claim_fails :
    ¬ (∀ r ∈ (pack_rows 1920 30 [3000]).map Prod.fst,
        r.sum + 30 * (r.length - 1) ≤ 1920) := by
  decide

/-- C4 (amended): every row produced by the greedy packing either respects
the cumulative bound sum + border * (count - 1) <= screenWidth or holds at
most one image; an image wider than the screen always sits in a one-element
row of its own; and no image is ever rejected, the concatenation of the
produced rows being exactly the input list. -/
theorem row_packing_bound (W b : Nat) (ws : List Nat) :
    (∀ r ∈ (pack_rows W b ws).map Prod.fst, r.sum + b * (r.length - 1) ≤ W ∨ r.length ≤ 1)
    ∧ ((pack_rows W b ws).map Prod.fst).flatten = ws
    ∧ (∀ r ∈ (pack_rows W b ws).map Prod.fst, ∀ w ∈ r, W < w → r = [w]) := by
  obtain ⟨hrows, hflat⟩ := pack_rows_props W b ws
  refine ⟨?_, hflat, fun r hr => (hrows r hr).2⟩
  intro r hr
  rcases (hrows r hr).1 with h | h
  · exact Or.inr h
  · left
    have h2 : 2 * b * (r.length - 1) = b * (r.length - 1) + b * (r.length - 1) := by ring
    omega

/-- Witness for C4 (amended): the oversized single row [3000] from the
counterexample input satisfies the amended disjunction through the
one-element case. -/
theorem row_packing_bound_witness :
    ([3000] ∈ (pack_rows 1920 30 [3000]).map Prod.fst)
    ∧ (([3000] : List Nat).sum + 30 * (([3000] : List Nat).length - 1) ≤ 1920
        ∨ ([3000] : List Nat).length ≤ 1) :=
  ⟨by decide, (row_packing_bound 1920 30 [3000]).1 [3000] (by decide)⟩

/-! Painting: the margin arithmetic of the second phase of
create_combined_images. -/

/-- The x offsets the paste loop produces when started at x with margin m. -/
def paint_positions (m : Int) : Int → List Nat → List Int
  | _, [] => []
  | x, w :: ws => x :: paint_positions m (x + (w : Int) + m) ws

lemma paint_loop_eq (m : Int) (ws : List Nat) : ∀ (acc : List Int) (x : Int),
    ws.foldl (fun (a : List Int × Int) (w : Nat) => (a.1 ++ [a.2], a.2 + (w : Int) + m)) (acc, x) =
      (acc ++ paint_positions m x ws, x + (ws.sum : Int) + (ws.length : Int) * m) := by
  induction ws with
  | nil => intro acc x; simp [paint_positions]
  | cons w ws ih =>
    intro acc x
    simp only [List.foldl_cons, paint_positions]
    rw [ih]
    refine Prod.ext ?_ ?_
    · simp
    · simp only [List.length_cons, List.sum_cons, List.map_cons]
      push_cast
      ring

lemma paint_positions_getD (m : Int) : ∀ (ws : List Nat) (x : Int) (i : Nat), i < ws.length →
    (paint_positions m x ws).getD i 0 = x + ((ws.take i).sum : Int) + (i : Int) * m := by
  intro ws
  induction ws with
  | nil => intro x i hi; simp at hi
  | cons w ws ih =>
    intro x i hi
    cases i with
    | zero => simp [paint_positions]
    | succ j =>
      have hj : j < ws.length := by simpa using hi
      simp only [paint_positions, List.getD_cons_succ]
      rw [ih (x + (w : Int) + m) j hj]
      simp only [List.take_succ_cons, List.sum_cons]
      push_cast
      ring

lemma mul_fdiv_le (a b : Int) (hb : 0 < b) : b * (a.fdiv b) ≤ a := by
  rw [Int.fdiv_eq_ediv _ hb.le]
  have h1 := Int.ediv_add_emod a b
  have h2 := Int.emod_nonneg a (ne_of_gt hb)
  omega

/-- C5: for every closed row with images summing to W on a canvas of width
C, the paste loop places image i at offset (i + 1) * m + (sum of the first
i widths) with m = (C - W) // (count + 1) in floor division, i.e. the
margin m sits before, between and after the images; the final x offset
equals W + (count + 1) * m and never exceeds C. -/
theorem row_margin_and_paint (sw sh top : Nat) (r : List Nat) :
    (paint_row sw sh top r).finalOffset =
      (r.sum : Int) + ((r.length : Int) + 1)
        * (((sw : Int) - (r.sum : Int)).fdiv ((r.length : Int) + 1))
    ∧ (paint_row sw sh top r).finalOffset ≤ (sw : Int)
    ∧ (∀ i, i < r.length →
        (paint_row sw sh top r).pasteOffsets.getD i 0 =
          ((i : Int) + 1) * (((sw : Int) - (r.sum : Int)).fdiv ((r.length : Int) + 1))
            + ((r.take i).sum : Int)) := by
  have hm : even_border_width sw r
      = ((sw : Int) - (r.sum : Int)).fdiv ((r.length : Int) + 1) := rfl
  have hpaint : paint_row sw sh top r =
      ⟨sw, sh, r, paint_positions (even_border_width sw r) (even_border_width sw r) r,
        top, even_border_width sw r + (r.sum : Int)
          + (r.length : Int) * even_border_width sw r⟩ := by
    simp only [paint_row]
    rw [paint_loop_eq]
    simp
  have hfinal : (paint_row sw sh top r).finalOffset =
      (r.sum : Int) + ((r.length : Int) + 1) * even_border_width sw r := by
    rw [hpaint]
    ring
  refine ⟨by rw [hfinal, hm], ?_, ?_⟩
  · rw [hfinal]
    have hpos : (0 : Int) < (r.length : Int) + 1 := by positivity
    have hle := mul_fdiv_le ((sw : Int) - (r.sum : Int)) ((r.length : Int) + 1) hpos
    rw [hm]
    linarith
  · intro i hi
    rw [hpaint]
    simp only
    rw [paint_positions_getD (even_border_width sw r) r (even_border_width sw r) i hi, hm]
    ring

/-- Witness for C5: the two-image row [500, 600] on the default 1920 canvas,
checked at the second image (index 1). -/
theorem row_margin_and_paint_witness :
    1 < ([500, 600] : List Nat).length
    ∧ (paint_row 1920 1080 60 [500, 600]).pasteOffsets.getD 1 0 =
        (((1 : Nat) : Int) + 1)
          * ((((1920 : Nat) : Int) - (([500, 600] : List Nat).sum : Int)).fdiv
              ((([500, 600] : List Nat).length : Int) + 1))
          + ((([500, 600] : List Nat).take 1).sum : Int) := by
  constructor
  · decide
  · exact (row_margin_and_paint 1920 1080 60 [500, 600]).2.2 1 (by decide)

/-! File scanning: ordering lemmas and the claim theorems about the two
scanners. -/

lemma lex_le_total : ∀ a b : FileName, lex_le a b = true ∨ lex_le b a = true := by
  intro a
  induction a with
  | nil => intro b; left; simp [lex_le]
  | cons x xs ih =>
    intro b
    cases b with
    | nil => right; simp [lex_le]
    | cons y ys =>
      by_cases hxy : x.toNat < y.toNat
      · left; simp [lex_le, hxy]
      · by_cases hyx : y.toNat < x.toNat
        · right; simp [lex_le, hyx]
        · rcases ih ys with h | h
          · left; simp [lex_le, hxy, hyx, h]
          · right; simp [lex_le, hxy, hyx, h]

lemma lex_le_trans : ∀ a b c : FileName,
    lex_le a b = true → lex_le b c = true → lex_le a c = true := by
  intro a
  induction a with
  | nil => intro b c _ _; simp [lex_le]
  | cons x xs ih =>
    intro b c hab hbc
    cases b with
    | nil => simp [lex_le] at hab
    | cons y ys =>
      cases c with
      | nil => simp [lex_le] at hbc
      | cons z zs =>
        simp only [lex_le] at hab hbc ⊢
        rcases Nat.lt_trichotomy x.toNat y.toNat with h1 | h1 | h1
        · rcases Nat.lt_trichotomy y.toNat z.toNat with h2 | h2 | h2
          · simp [Nat.lt_trans h1 h2]
          · have : x.toNat < z.toNat := by omega
            simp [this]
          · rw [if_neg (by omega), if_pos h2] at hbc
            exact absurd hbc (by simp)
        · rw [if_neg (by omega), if_neg (by omega)] at hab
          rcases Nat.lt_trichotomy y.toNat z.toNat with h2 | h2 | h2
          · have : x.toNat < z.toNat := by omega
            simp [this]
          · rw [if_neg (by omega), if_neg (by omega)] at hbc
            rw [if_neg (by omega), if_neg (by omega)]
            exact ih ys zs hab hbc
          · rw [if_neg (by omega), if_pos h2] at hbc
            exact absurd hbc (by simp)
        · rw [if_neg (by omega), if_pos h1] at hab
          exact absurd hab (by simp)

instance : IsTotal FileName (fun a b => lex_le a b = true) := ⟨lex_le_total⟩

instance : IsTrans FileName (fun a b => lex_le a b = true) := ⟨lex_le_trans⟩

/-- C7: the claim says both scanners return sorted lists of paths, and in
particular that the photo path list the Batch Loader slices is sorted.
get_image_files applies no sort: a directory whose listing comes back as
b.jpg, a.jpg makes the image scanner return d/b.jpg, d/a.jpg, which is not
sorted. -/
theorem image_scanner_not_sorted :
    ¬ List.Pairwise (fun a b => lex_le a b = true)
      (get_image_files "d".data ["b.jpg".data, "a.jpg".data]) := by
  decide

/-- C7 (amended): get_video_files returns a sorted list (code point order),
a permutation of exactly the case-insensitively matching non-dotfile entries
joined under media_dir/converted, and an empty list when the converted
directory is missing; get_image_files keeps the raw listing order, returning
the matching non-dotfile entries joined to the directory as an
order-preserving sublist of the joined listing, so the photo list is sorted
only when the directory listing itself is. -/
theorem file_scanners (mediaDir : FileName) (listing convListing : List FileName) :
    List.Pairwise (fun a b => lex_le a b = true) (get_video_files mediaDir (some convListing))
    ∧ (get_video_files mediaDir (some convListing)).Perm
        ((convListing.filter is_video_file).map
          (path_join (path_join mediaDir converted_subfolder)))
    ∧ get_video_files mediaDir none = []
    ∧ (get_image_files mediaDir listing).Sublist (listing.map (path_join mediaDir))
    ∧ (∀ f ∈ get_image_files mediaDir listing,
        ∃ g ∈ listing, is_image_file g = true ∧ f = path_join mediaDir g) := by
  refine ⟨?_, ?_, rfl, ?_, ?_⟩
  · exact List.sorted_insertionSort _ _
  · exact List.perm_insertionSort _ _
  · exact List.Sublist.map (path_join mediaDir) (List.filter_sublist listing)
  · intro f hf
    obtain ⟨g, hg, rfl⟩ := List.mem_map.mp hf
    obtain ⟨hgl, hgp⟩ := List.mem_filter.mp hg
    exact ⟨g, hgl, hgp, rfl⟩

/-- Witness for C7 (amended): the entry d/b.jpg of the concrete listing is
produced by the image scanner and traces back to the listing entry b.jpg. -/
theorem file_scanners_witness :
    ("d/b.jpg".data ∈ get_image_files "d".data ["b.jpg".data, "a.jpg".data])
    ∧ ∃ g ∈ ["b.jpg".data, "a.jpg".data],
        is_image_file g = true ∧ "d/b.jpg".data = path_join "d".data g :=
  ⟨by decide,
   (file_scanners "d".data ["b.jpg".data, "a.jpg".data] []).2.2.2.2 "d/b.jpg".data (by decide)⟩

/-! Video playback: the play_video error path. -/

/-- The player state right after VideoPlayer.__init__. -/
def initial_player_state : PlayerState := ⟨none, false, none, false, false, none⟩

/-- C9: the claim also covers a video the engine fails to open, asserting an
immediate on_complete invocation; play_video never consults the engine
outcome: with an existing path, a failing engine and a callback supplied,
the only synchronous effect is the engine start and no callback runs, so the
queue waits on an end event that an unopenable file need never deliver. -/
theorem play_video_engine_failure_no_callback :
    (play_video true false true "v.mp4".data initial_player_state).2 = [PlayAction.engineStart]
    ∧ PlayAction.invokeOnComplete ∉
        (play_video true false true "v.mp4".data initial_player_state).2 := by
  decide

/-- C9 (amended): when the path does not exist at play time, play_video
invokes the callback immediately (when one was supplied) and leaves the
player state untouched, so the entry is treated as already complete and
playback auto-advances; when the path exists, play_video never invokes the
callback synchronously: it resumes the preloaded video or starts the engine,
regardless of whether the engine can actually open the file. -/
theorem play_video_missing_path (engineOpens hasCallback : Bool) (videoPath : FileName)
    (ps : PlayerState) :
    (play_video false engineOpens hasCallback videoPath ps).1 = ps
    ∧ (play_video false engineOpens hasCallback videoPath ps).2 =
        (if hasCallback then [PlayAction.invokeOnComplete] else [])
    ∧ PlayAction.invokeOnComplete ∉ (play_video true engineOpens hasCallback videoPath ps).2 := by
  refine ⟨rfl, rfl, ?_⟩
  have h : (play_video true engineOpens hasCallback videoPath ps).2 = [PlayAction.resumePreloaded]
      ∨ (play_video true engineOpens hasCallback videoPath ps).2 = [PlayAction.engineStart] := by
    simp only [play_video, Bool.not_true]
    rw [if_neg (by simp)]
    split
    · exact Or.inl rfl
    · exact Or.inr rfl
  rcases h with h | h <;> rw [h] <;> simp

/-! Batch loading: the rollover refinement and the cache bound. -/

lemma batch_slice_isEmpty_iff (cfg : Config) (s : FrameState) (hb : 1 ≤ cfg.batchSize) :
    (batch_slice cfg s).isEmpty = true
      ↔ s.allImageFiles.length ≤ s.currentBatchIndex * cfg.batchSize := by
  unfold batch_slice
  rw [List.isEmpty_iff]
  constructor
  · intro h
    by_contra hlt
    push_neg at hlt
    have hdroplen : (s.allImageFiles.drop (s.currentBatchIndex * cfg.batchSize)).length
        = s.allImageFiles.length - s.currentBatchIndex * cfg.batchSize := List.length_drop _ _
    have : ((s.allImageFiles.drop (s.currentBatchIndex * cfg.batchSize)).take cfg.batchSize).length
        = min cfg.batchSize (s.allImageFiles.length - s.currentBatchIndex * cfg.batchSize) := by
      rw [List.length_take, hdroplen]
    rw [h] at this
    simp at this
    omega
  · intro h
    have : (s.allImageFiles.drop (s.currentBatchIndex * cfg.batchSize)) = [] := by
      rw [← List.length_eq_zero, List.length_drop]
      omega
    rw [this, List.take_nil]

lemma create_combined_images_nil (sw sh b bh top : Nat) :
    create_combined_images sw sh b bh top [] = [] := rfl

lemma process_next_batch_of_empty (cfg : Config) (s : FrameState)
    (h : (batch_slice cfg s).isEmpty = true) :
    process_next_batch cfg s = (s, false) := by
  unfold process_next_batch
  rw [if_pos h]

lemma process_next_batch_of_nonempty (cfg : Config) (s : FrameState)
    (h : ¬ (batch_slice cfg s).isEmpty = true) :
    process_next_batch cfg s =
      (manage_batch_cache cfg
        { s with combinedImages :=
            s.combinedImages ++ (create_combined_images cfg.screenWidth cfg.screenHeight
              cfg.borderSize cfg.borderHeight cfg.adaptiveTopHeight (batch_slice cfg s)) },
       true) := by
  unfold process_next_batch
  rw [if_neg h]

lemma manage_batch_cache_currentBatchIndex (cfg : Config) (s : FrameState) :
    (manage_batch_cache cfg s).currentBatchIndex = s.currentBatchIndex := by
  simp only [manage_batch_cache]
  split <;> rfl

lemma rebuild_queue_currentBatchIndex (s : FrameState) :
    (rebuild_queue s).currentBatchIndex = s.currentBatchIndex := rfl

/-- C3: the boundary handling of show_next_media agrees state-for-state with
the spec wording (advance, wrap exactly at batchIndex * batchSize >=
totalPhotoCount, load, rebuild-and-reset on a non-empty batch, wrap to 0 and
retry once on an empty batch, else keep cycling the existing queue), the
cursor is reset to 0 in every outcome, and the batch index ends at the
advanced value wrapped exactly at the threshold. Requires a positive
configured batch size (the default is 10). -/
theorem rollover_refines_spec (cfg : Config) (s : FrameState) (hb : 1 ≤ cfg.batchSize) :
    rollover_step cfg s = spec_rollover_step cfg s
    ∧ (rollover_step cfg s).currentIndex = 0
    ∧ (rollover_step cfg s).currentBatchIndex =
        (if (s.currentBatchIndex + 1) * cfg.batchSize ≥ s.allImageFiles.length then 0
         else s.currentBatchIndex + 1) := by
  by_cases hslice : (batch_slice cfg
      { s with currentBatchIndex :=
          if (s.currentBatchIndex + 1) * cfg.batchSize ≥ s.allImageFiles.length then 0
          else s.currentBatchIndex + 1 }).isEmpty
  · -- the advanced slice is empty: with a positive batch size this forces a
    -- wrapped index, making the retry of the spec a no-op on the same state
    have hwrap : (if (s.currentBatchIndex + 1) * cfg.batchSize ≥ s.allImageFiles.length then 0
        else s.currentBatchIndex + 1) = 0 := by
      split
      · rfl
      · exfalso
        rename_i hcond
        rw [if_neg hcond] at hslice
        rw [batch_slice_isEmpty_iff cfg _ hb] at hslice
        simp only at hslice
        exact hcond hslice
    rw [hwrap] at hslice
    have hpe := process_next_batch_of_empty cfg { s with currentBatchIndex := 0 } hslice
    simp only [rollover_step, spec_rollover_step]
    rw [hwrap]
    simp only [hpe]
    exact ⟨trivial, trivial, trivial⟩
  · -- the advanced slice is non-empty: both sides take the rebuild branch
    have hpe := process_next_batch_of_nonempty cfg
      { s with currentBatchIndex :=
          if (s.currentBatchIndex + 1) * cfg.batchSize ≥ s.allImageFiles.length then 0
          else s.currentBatchIndex + 1 } hslice
    simp only [rollover_step, spec_rollover_step, hpe]
    refine ⟨trivial, trivial, ?_⟩
    rw [rebuild_queue_currentBatchIndex, manage_batch_cache_currentBatchIndex]

lemma length_py_slice_last {α : Type} (n : Nat) (l : List α) (hn : n ≠ 0) :
    (py_slice_last n l).length = l.length - (l.length - n) := by
  unfold py_slice_last
  rw [if_neg hn, List.length_drop]

/-- C8: after every load, the running canvas collection holds at most
max_cache_size * 3 entries (given the bound held beforehand, which covers
the no-op empty-batch load), and eviction only drops the oldest entries: the
resulting collection is a suffix of the previous collection extended by the
newly tiled batch, so the newest entries survive in their original order.
Requires a positive configured cache size (the default is 3). -/
theorem batch_cache_bound (cfg : Config) (s : FrameState)
    (hc : 1 ≤ cfg.maxCacheSize)
    (hlen : s.combinedImages.length ≤ cfg.maxCacheSize * 3) :
    ((process_next_batch cfg s).1.combinedImages.length ≤ cfg.maxCacheSize * 3)
    ∧ (process_next_batch cfg s).1.combinedImages.IsSuffix
        (s.combinedImages ++ create_combined_images cfg.screenWidth cfg.screenHeight
          cfg.borderSize cfg.borderHeight cfg.adaptiveTopHeight (batch_slice cfg s)) := by
  by_cases hslice : (batch_slice cfg s).isEmpty
  · rw [process_next_batch_of_empty cfg s hslice]
    have hnil : batch_slice cfg s = [] := List.isEmpty_iff.mp hslice
    rw [hnil, create_combined_images_nil, List.append_nil]
    exact ⟨hlen, List.suffix_refl _⟩
  · rw [process_next_batch_of_nonempty cfg s hslice]
    simp only [manage_batch_cache]
    split
    · rename_i hgt
      simp only at hgt ⊢
      constructor
      · rw [length_py_slice_last _ _ (by omega)]
        omega
      · simp only [py_slice_last]
        rw [if_neg (by omega : ¬ cfg.maxCacheSize * 3 = 0)]
        exact List.drop_suffix _ _
    · rename_i hle
      simp only at hle ⊢
      exact ⟨by omega, List.suffix_refl _⟩

/-- The default configuration of config.py: batch size 10, cache size 3,
1920 x 1080 screen, borders 30 and 50, top offset 60, video playback
enabled, half-second key debounce, over a file system where every video
path exists. -/
def cfg_demo : Config := ⟨10, 3, 1920, 1080, 30, 50, 60, true, 1/2, fun _ => true⟩

/-- A demo photo of 800 x 980 pixels without orientation tag; its scaled
width on the demo screen (height 1080 - 2 * 50 = 980) is 800. -/
def img_demo : SrcImage := ⟨800, 980, none⟩

/-- A frame state fresh from startup: one photo on disk, nothing processed. -/
def state_fresh : FrameState := ⟨[img_demo], [], [], 0, [], 0, 0, none⟩

/-- Witness for C3: at the default batch size 10 and a fresh one-photo
state, the boundary step of the code and of the spec coincide. -/
theorem rollover_refines_spec_witness :
    1 ≤ cfg_demo.batchSize
    ∧ (rollover_step cfg_demo state_fresh = spec_rollover_step cfg_demo state_fresh
      ∧ (rollover_step cfg_demo state_fresh).currentIndex = 0
      ∧ (rollover_step cfg_demo state_fresh).currentBatchIndex =
          (if (state_fresh.currentBatchIndex + 1) * cfg_demo.batchSize
              ≥ state_fresh.allImageFiles.length then 0
           else state_fresh.currentBatchIndex + 1)) :=
  ⟨by decide, rollover_refines_spec cfg_demo state_fresh (by decide)⟩


/-- Witness for C8: the fresh state satisfies both hypotheses and the first
load keeps the collection within the bound, as a suffix of the extension. -/
theorem batch_cache_bound_witness :
    (1 ≤ cfg_demo.maxCacheSize
      ∧ state_fresh.combinedImages.length ≤ cfg_demo.maxCacheSize * 3)
    ∧ (((process_next_batch cfg_demo state_fresh).1.combinedImages.length
          ≤ cfg_demo.maxCacheSize * 3)
        ∧ (process_next_batch cfg_demo state_fresh).1.combinedImages.IsSuffix
            (state_fresh.combinedImages ++ create_combined_images cfg_demo.screenWidth
              cfg_demo.screenHeight cfg_demo.borderSize cfg_demo.borderHeight
              cfg_demo.adaptiveTopHeight (batch_slice cfg_demo state_fresh))) :=
  ⟨⟨by decide, by decide⟩, batch_cache_bound cfg_demo state_fresh (by decide) (by decide)⟩

/-! Non-emptiness facts feeding the cursor invariant. -/

lemma pack_step_row_ne_nil (W b : Nat) (st : PackState) (w : Nat) :
    (pack_step W b st w).currentRow ≠ [] := by
  unfold pack_step
  split <;> simp

lemma pack_foldl_row_ne_nil (W b : Nat) :
    ∀ (ws : List Nat) (st : PackState), (st.currentRow ≠ [] ∨ ws ≠ []) →
      (ws.foldl (pack_step W b) st).currentRow ≠ [] := by
  intro ws
  induction ws with
  | nil =>
    intro st h
    rcases h with h | h
    · simpa using h
    · exact absurd rfl h
  | cons w ws ih =>
    intro st _
    rw [List.foldl_cons]
    exact ih _ (Or.inl (pack_step_row_ne_nil W b st w))

lemma pack_rows_ne_nil (W b : Nat) (ws : List Nat) (h : ws ≠ []) :
    pack_rows W b ws ≠ [] := by
  simp only [pack_rows]
  have hrow := pack_foldl_row_ne_nil W b ws ⟨[], [], 0⟩ (Or.inr h)
  rw [if_neg (by simpa [List.isEmpty_iff] using hrow)]
  simp

lemma create_combined_images_ne_nil (sw sh b bh top : Nat) (files : List SrcImage)
    (h : files ≠ []) : create_combined_images sw sh b bh top files ≠ [] := by
  unfold create_combined_images
  intro hmap
  have hpack := List.map_eq_nil_iff.mp hmap
  have hws : files.map (scaled_width sh bh) ≠ [] := by
    simp only [ne_eq, List.map_eq_nil_iff]
    exact h
  exact pack_rows_ne_nil sw b _ hws hpack

lemma interleave_entries_ne_nil {C V : Type} (cs : List C) (vs : List V)
    (h : cs ≠ [] ∨ vs ≠ []) : interleave_entries cs vs ≠ [] := by
  cases cs <;> cases vs <;> simp [interleave_entries] at h ⊢

lemma create_media_queue_ne_nil {C V : Type} (cs : List C) (vs : List V)
    (h : cs ≠ [] ∨ vs ≠ []) : create_media_queue cs vs ≠ [] := by
  rw [create_media_queue_eq_interleave]
  exact interleave_entries_ne_nil cs vs h

lemma py_slice_last_ne_nil {α : Type} (n : Nat) (l : List α) (h : l ≠ []) :
    py_slice_last n l ≠ [] := by
  unfold py_slice_last
  split
  · exact h
  · rename_i hn
    have hl : 0 < l.length := List.length_pos.mpr h
    simp only [ne_eq, List.drop_eq_nil_iff]
    omega

lemma process_next_batch_false_id (cfg : Config) (s : FrameState)
    (h : (process_next_batch cfg s).2 = false) : (process_next_batch cfg s).1 = s := by
  by_cases hslice : (batch_slice cfg s).isEmpty
  · rw [process_next_batch_of_empty cfg s hslice]
  · rw [process_next_batch_of_nonempty cfg s hslice] at h
    simp at h

lemma process_next_batch_mediaQueue (cfg : Config) (s : FrameState) :
    (process_next_batch cfg s).1.mediaQueue = s.mediaQueue := by
  by_cases hslice : (batch_slice cfg s).isEmpty
  · rw [process_next_batch_of_empty cfg s hslice]
  · rw [process_next_batch_of_nonempty cfg s hslice]
    simp only [manage_batch_cache]
    split <;> rfl

lemma process_next_batch_combined_ne_nil (cfg : Config) (s : FrameState)
    (h : (process_next_batch cfg s).2 = true) :
    (process_next_batch cfg s).1.combinedImages ≠ [] := by
  by_cases hslice : (batch_slice cfg s).isEmpty
  · rw [process_next_batch_of_empty cfg s hslice] at h
    simp at h
  · rw [process_next_batch_of_nonempty cfg s hslice]
    have hbatch : batch_slice cfg s ≠ [] := fun hnil => hslice (by rw [hnil]; rfl)
    have hcc := create_combined_images_ne_nil cfg.screenWidth cfg.screenHeight cfg.borderSize
      cfg.borderHeight cfg.adaptiveTopHeight (batch_slice cfg s) hbatch
    simp only [manage_batch_cache]
    split
    · simp only
      apply py_slice_last_ne_nil
      simp [hcc]
    · simp only
      simp [hcc]

lemma rollover_step_props (cfg : Config) (s : FrameState) (hq : s.mediaQueue ≠ []) :
    (rollover_step cfg s).mediaQueue ≠ [] ∧ (rollover_step cfg s).currentIndex = 0 := by
  simp only [rollover_step]
  split
  · rename_i s2 heq
    have h2 := congrArg Prod.snd heq
    have h1 := congrArg Prod.fst heq
    simp only at h1 h2
    have hcomb := process_next_batch_combined_ne_nil cfg _ h2
    rw [h1] at hcomb
    constructor
    · show create_media_queue s2.combinedImages s2.videoFiles ≠ []
      exact create_media_queue_ne_nil _ _ (Or.inl hcomb)
    · rfl
  · rename_i s2 heq
    have h2 := congrArg Prod.snd heq
    have h1 := congrArg Prod.fst heq
    simp only at h1 h2
    have hid := process_next_batch_false_id cfg _ h2
    rw [h1] at hid
    constructor
    · show s2.mediaQueue ≠ []
      rw [hid]
      exact hq
    · rfl

lemma show_next_media_inv (cfg : Config) (s : FrameState) (hq : s.mediaQueue ≠ [])
    (hb2 : 2 ≤ cfg.batchSize) :
    (show_next_media cfg s).mediaQueue ≠ []
    ∧ (show_next_media cfg s).currentIndex ≤ (show_next_media cfg s).mediaQueue.length := by
  have hne : ¬ (s.mediaQueue.isEmpty = true) := fun h => hq (List.isEmpty_iff.mp h)
  have hpre : ¬ (0 < s.currentIndex ∧ cfg.batchSize / 2 = 0) := by
    rintro ⟨_, h2⟩
    omega
  simp only [show_next_media]
  rw [if_neg hne, if_neg hpre]
  by_cases hroll : s.currentIndex ≥ s.mediaQueue.length
  · rw [if_pos hroll]
    obtain ⟨hq2, hidx2⟩ := rollover_step_props cfg s hq
    have hlen : 0 < (rollover_step cfg s).mediaQueue.length := List.length_pos.mpr hq2
    rw [dif_pos (by omega : (rollover_step cfg s).currentIndex
        < (rollover_step cfg s).mediaQueue.length)]
    split
    · exact ⟨hq2, by simp only; omega⟩
    · split
      · split
        · exact ⟨hq2, by simp only; omega⟩
        · exact ⟨hq2, by omega⟩
      · exact ⟨hq2, by simp only; omega⟩
  · rw [if_neg hroll]
    push_neg at hroll
    rw [dif_pos hroll]
    split
    · exact ⟨hq, by simp only; omega⟩
    · split
      · split
        · exact ⟨hq, by simp only; omega⟩
        · exact ⟨hq, by omega⟩
      · exact ⟨hq, by simp only; omega⟩

lemma navigate_next_inv (cfg : Config) (s : FrameState) (hq : s.mediaQueue ≠ [])
    (hb2 : 2 ≤ cfg.batchSize) :
    (navigate_next cfg s).mediaQueue ≠ []
    ∧ (navigate_next cfg s).currentIndex ≤ (navigate_next cfg s).mediaQueue.length := by
  unfold navigate_next
  exact show_next_media_inv cfg _ hq hb2

lemma show_media_at_index_inv (cfg : Config) (s : FrameState) (hq : s.mediaQueue ≠ []) :
    (show_media_at_index_with_auto_advance cfg s).mediaQueue ≠ []
    ∧ (show_media_at_index_with_auto_advance cfg s).currentIndex
        ≤ (show_media_at_index_with_auto_advance cfg s).mediaQueue.length := by
  have hne : ¬ (s.mediaQueue.isEmpty = true) := fun h => hq (List.isEmpty_iff.mp h)
  have hlen : 0 < s.mediaQueue.length := List.length_pos.mpr hq
  simp only [show_media_at_index_with_auto_advance]
  rw [if_neg hne]
  by_cases hre : s.currentIndex ≥ s.mediaQueue.length
  · rw [if_pos hre]
    rw [dif_pos (by simp only; omega :
        ({ s with currentIndex := 0 } : FrameState).currentIndex
          < ({ s with currentIndex := 0 } : FrameState).mediaQueue.length)]
    split
    · exact ⟨hq, by simp only; omega⟩
    · split
      · exact ⟨hq, by simp only; omega⟩
      · exact ⟨hq, by simp only; omega⟩
  · rw [if_neg hre]
    push_neg at hre
    rw [dif_pos hre]
    split
    · exact ⟨hq, by omega⟩
    · split
      · exact ⟨hq, by simp only; omega⟩
      · exact ⟨hq, by simp only; omega⟩

lemma navigate_previous_inv (cfg : Config) (s : FrameState) (hq : s.mediaQueue ≠ []) :
    (navigate_previous cfg s).mediaQueue ≠ []
    ∧ (navigate_previous cfg s).currentIndex ≤ (navigate_previous cfg s).mediaQueue.length := by
  have hne : ¬ (s.mediaQueue.isEmpty = true) := fun h => hq (List.isEmpty_iff.mp h)
  simp only [navigate_previous]
  rw [if_neg hne, if_neg hne]
  exact show_media_at_index_inv cfg _ hq

/-- A demo canvas holding one image of the given scaled width. -/
def canvas_demo (w : Nat) : Canvas := paint_row 1920 1080 60 [w]

/-- A demo state with one canvas and one video, so a two-entry queue
(photo then video), cursor at the start. -/
def state_c2 : FrameState :=
  ⟨[], ["v.mp4".data], [canvas_demo 800], 0,
   create_media_queue [canvas_demo 800] ["v.mp4".data], 0, 0, none⟩

/-- C2: as stated, the claim keeps the cursor inside the half-open range
below the queue length at the end of each operation; the successful display
paths post-increment the cursor, so showing the last entry leaves the
cursor equal to the queue length: from the two-entry queue of this state,
one explicit next ends with cursor 2 = length, outside the claimed range. -/
theorem cursor_claim_range_fails :
    (navigate_next cfg_demo state_c2).currentIndex = 2
    ∧ (navigate_next cfg_demo state_c2).mediaQueue.length = 2
    ∧ ¬ ((navigate_next cfg_demo state_c2).currentIndex
          < (navigate_next cfg_demo state_c2).mediaQueue.length) := by
  decide

/-- C2 (amended): for configurations whose batch size is at least 2 (the
default is 10; at batch size 1 or 0 the halfway preload check of
show_next_media divides by zero), after any finite sequence of next,
previous and timer operations from a state with a non-empty queue and
cursor at most the queue length, the queue stays non-empty and the cursor
stays in the inclusive range up to the queue length, the invariant of the
spec data model (the counterexample shows an operation ending with the
cursor equal to the length, so the half-open range of the claim fails; the
boundary rollover resets the cursor to 0 before any access); and the
decrement of a previous operation is exact modular arithmetic: for a
non-empty queue and cursor at most the length, the wrapped-and-clamped
value is (index - 1) mod length. -/
theorem cursor_stays_in_bounds (cfg : Config) (s : FrameState) (ops : List NavOp)
    (hb2 : 2 ≤ cfg.batchSize)
    (hq : s.mediaQueue ≠ []) (hi : s.currentIndex ≤ s.mediaQueue.length) :
    ((run_ops cfg ops s).mediaQueue ≠ []
      ∧ (run_ops cfg ops s).currentIndex ≤ (run_ops cfg ops s).mediaQueue.length)
    ∧ (∀ queueLength idx : Nat, 0 < queueLength → idx ≤ queueLength →
        ((prev_wrap_clamp queueLength idx : Nat) : Int)
          = ((idx : Int) - 1) % (queueLength : Int)) := by
  constructor
  · induction ops generalizing s with
    | nil => exact ⟨hq, hi⟩
    | cons op ops ih =>
      simp only [run_ops, List.foldl_cons]
      cases op
      · obtain ⟨h1, h2⟩ := navigate_next_inv cfg s hq hb2
        exact ih _ h1 h2
      · obtain ⟨h1, h2⟩ := navigate_previous_inv cfg s hq
        exact ih _ h1 h2
      · obtain ⟨h1, h2⟩ := show_next_media_inv cfg s hq hb2
        exact ih _ h1 h2
  · intro queueLength idx hL hidx
    by_cases h0 : idx = 0
    · subst h0
      simp only [prev_wrap_clamp]
      rw [if_pos (by norm_num : ((0 : Nat) : Int) - 1 < 0),
        if_neg (by omega : ¬ queueLength = 0),
        if_neg (by omega : ¬ ((queueLength : Int) - 1 ≥ (queueLength : Int)))]
      have hm : (((0 : Nat) : Int) - 1) % (queueLength : Int) = (queueLength : Int) - 1 := by
        have h1 : (((0 : Nat) : Int) - 1)
            = ((queueLength : Int) - 1) + (queueLength : Int) * (-1) := by
          push_cast
          ring
        rw [h1, Int.add_mul_emod_self_left, Int.emod_eq_of_lt (by omega) (by omega)]
      rw [hm]
      omega
    · simp only [prev_wrap_clamp]
      rw [if_neg (by omega : ¬ ((idx : Int) - 1 < 0)),
        if_neg (by omega : ¬ ((idx : Int) - 1 ≥ (queueLength : Int))),
        Int.emod_eq_of_lt (by omega) (by omega)]
      omega

/-- Witness for C2 (amended): the two-entry demo state satisfies the
hypotheses and one next operation keeps the invariant. -/
theorem cursor_stays_in_bounds_witness :
    (2 ≤ cfg_demo.batchSize
      ∧ state_c2.mediaQueue ≠ [] ∧ state_c2.currentIndex ≤ state_c2.mediaQueue.length)
    ∧ (((run_ops cfg_demo [NavOp.next] state_c2).mediaQueue ≠ []
        ∧ (run_ops cfg_demo [NavOp.next] state_c2).currentIndex
            ≤ (run_ops cfg_demo [NavOp.next] state_c2).mediaQueue.length)
      ∧ (∀ queueLength idx : Nat, 0 < queueLength → idx ≤ queueLength →
          ((prev_wrap_clamp queueLength idx : Nat) : Int)
            = ((idx : Int) - 1) % (queueLength : Int))) :=
  ⟨⟨by decide, by decide, by decide⟩,
   cursor_stays_in_bounds cfg_demo state_c2 [NavOp.next] (by decide) (by decide) (by decide)⟩

/-! Navigation idempotence (C6) and key debouncing (C10). -/

/-- Six demo canvases giving a six-entry photo queue. -/
def canvases_c6 : List Canvas :=
  [canvas_demo 100, canvas_demo 200, canvas_demo 300,
   canvas_demo 400, canvas_demo 500, canvas_demo 600]

/-- A stable mid-queue state: six photo entries, cursor 2, so entry 1 is on
screen and no batch rollover is involved in one navigation step. -/
def state_c6 : FrameState :=
  ⟨[], [], canvases_c6, 0, create_media_queue canvases_c6 ([] : List FileName), 2, 0,
   some (MediaEntry.photo (canvas_demo 200))⟩

/-- C6: from the stable mid-queue state with cursor 2 (entry 1 on screen),
previous-then-next ends at cursor 3, and next-then-previous equally ends at
cursor 3, instead of returning to 2: navigate_previous decrements the
cursor to 1 and then dies with TypeError at the photo payload unpack before
any re-display or increment (the displayed entry is untouched), while
navigate_next advances the cursor by two (its own pre-increment plus the
post-increment of the successful display in show_next_media). -/
theorem prev_then_next_skips :
    state_c6.currentIndex = 2
    ∧ (navigate_next cfg_demo (navigate_previous cfg_demo state_c6)).currentIndex = 3
    ∧ (navigate_previous cfg_demo (navigate_next cfg_demo state_c6)).currentIndex = 3
    ∧ (navigate_previous cfg_demo state_c6).currentIndex = 1
    ∧ (navigate_previous cfg_demo state_c6).displayed = state_c6.displayed := by
  decide

lemma lastKeyTime_manage_batch_cache (cfg : Config) (s : FrameState) :
    (manage_batch_cache cfg s).lastKeyTime = s.lastKeyTime := by
  simp only [manage_batch_cache]
  split <;> rfl

lemma lastKeyTime_process_next_batch (cfg : Config) (s : FrameState) :
    (process_next_batch cfg s).1.lastKeyTime = s.lastKeyTime := by
  by_cases hslice : (batch_slice cfg s).isEmpty
  · rw [process_next_batch_of_empty cfg s hslice]
  · rw [process_next_batch_of_nonempty cfg s hslice]
    rw [lastKeyTime_manage_batch_cache]

lemma lastKeyTime_rollover_step (cfg : Config) (s : FrameState) :
    (rollover_step cfg s).lastKeyTime = s.lastKeyTime := by
  simp only [rollover_step]
  split
  · rename_i s2 heq
    have h1 := congrArg Prod.fst heq
    simp only at h1
    show s2.lastKeyTime = s.lastKeyTime
    rw [← h1, lastKeyTime_process_next_batch]
  · rename_i s2 heq
    have h1 := congrArg Prod.fst heq
    simp only at h1
    show s2.lastKeyTime = s.lastKeyTime
    rw [← h1, lastKeyTime_process_next_batch]

lemma lastKeyTime_show_next_media (cfg : Config) (s : FrameState) :
    (show_next_media cfg s).lastKeyTime = s.lastKeyTime := by
  simp only [show_next_media]
  by_cases h0 : s.mediaQueue.isEmpty = true
  · rw [if_pos h0]
  · rw [if_neg h0]
    by_cases hpre : 0 < s.currentIndex ∧ cfg.batchSize / 2 = 0
    · rw [if_pos hpre]
    · rw [if_neg hpre]
      by_cases hroll : s.currentIndex ≥ s.mediaQueue.length
      · rw [if_pos hroll]
        have hl := lastKeyTime_rollover_step cfg s
        by_cases hlt : (rollover_step cfg s).currentIndex
            < (rollover_step cfg s).mediaQueue.length
        · rw [dif_pos hlt]
          split
          · exact hl
          · split
            · split
              · exact hl
              · exact hl
            · exact hl
        · rw [dif_neg hlt]
          exact hl
      · rw [if_neg hroll]
        by_cases hlt : s.currentIndex < s.mediaQueue.length
        · rw [dif_pos hlt]
          split
          · rfl
          · split
            · split
              · rfl
              · rfl
            · rfl
        · rw [dif_neg hlt]

lemma lastKeyTime_navigate_next (cfg : Config) (s : FrameState) :
    (navigate_next cfg s).lastKeyTime = s.lastKeyTime := by
  unfold navigate_next
  rw [lastKeyTime_show_next_media]

lemma lastKeyTime_show_media_at_index (cfg : Config) (s : FrameState) :
    (show_media_at_index_with_auto_advance cfg s).lastKeyTime = s.lastKeyTime := by
  simp only [show_media_at_index_with_auto_advance]
  by_cases h0 : s.mediaQueue.isEmpty = true
  · rw [if_pos h0]
  · rw [if_neg h0]
    by_cases hre : s.currentIndex ≥ s.mediaQueue.length
    · rw [if_pos hre]
      by_cases hlt : ({ s with currentIndex := 0 } : FrameState).currentIndex
          < ({ s with currentIndex := 0 } : FrameState).mediaQueue.length
      · rw [dif_pos hlt]
        split
        · rfl
        · split
          · rfl
          · rfl
      · rw [dif_neg hlt]
    · rw [if_neg hre]
      by_cases hlt : s.currentIndex < s.mediaQueue.length
      · rw [dif_pos hlt]
        split
        · rfl
        · split
          · rfl
          · rfl
      · rw [dif_neg hlt]

lemma lastKeyTime_navigate_previous (cfg : Config) (s : FrameState) :
    (navigate_previous cfg s).lastKeyTime = s.lastKeyTime := by
  simp only [navigate_previous]
  by_cases h0 : s.mediaQueue.isEmpty = true
  · rw [if_pos h0]
    by_cases h1 : (rebuild_queue s).mediaQueue.isEmpty = true
    · rw [if_pos h1]
      rfl
    · rw [if_neg h1]
      rw [lastKeyTime_show_media_at_index]
      rfl
  · rw [if_neg h0, if_neg h0]
    rw [lastKeyTime_show_media_at_index]

/-- C10: a next or previous key event arriving strictly inside the debounce
window measured from the single shared timestamp returns with the whole
frame state unchanged (cursor, queue, displayed entry and stored timestamp
alike); and since both directions share that timestamp, a previous event
arriving within the window after an accepted next event (and symmetrically
a next after an accepted previous) is dropped entirely, not deferred. -/
theorem key_debounce_drops_events (cfg : Config) (s : FrameState) (t0 t1 : Rat)
    (hacc : ¬ (t0 - s.lastKeyTime < cfg.keyDebounceTime))
    (hfast : t1 - t0 < cfg.keyDebounceTime) :
    (∀ (now : Rat) (s2 : FrameState), now - s2.lastKeyTime < cfg.keyDebounceTime →
        on_volume_up cfg now s2 = s2 ∧ on_volume_down cfg now s2 = s2)
    ∧ on_volume_down cfg t1 (on_volume_up cfg t0 s) = on_volume_up cfg t0 s
    ∧ on_volume_up cfg t1 (on_volume_down cfg t0 s) = on_volume_down cfg t0 s := by
  have hdrop : ∀ (now : Rat) (s2 : FrameState),
      now - s2.lastKeyTime < cfg.keyDebounceTime →
      on_volume_up cfg now s2 = s2 ∧ on_volume_down cfg now s2 = s2 := by
    intro now s2 h
    constructor
    · unfold on_volume_up
      rw [if_pos h]
    · unfold on_volume_down
      rw [if_pos h]
  refine ⟨hdrop, ?_, ?_⟩
  · have hup : (on_volume_up cfg t0 s).lastKeyTime = t0 := by
      unfold on_volume_up
      rw [if_neg hacc, lastKeyTime_navigate_next]
    exact (hdrop t1 _ (by rw [hup]; exact hfast)).2
  · have hdown : (on_volume_down cfg t0 s).lastKeyTime = t0 := by
      unfold on_volume_down
      rw [if_neg hacc, lastKeyTime_navigate_previous]
    exact (hdrop t1 _ (by rw [hdown]; exact hfast)).1

/-- Witness for C10: at the half-second default debounce, a key press at
time 1 over a state last touched at time 0 is accepted, and the opposite
direction pressed a quarter second later is dropped. -/
theorem key_debounce_witness :
    (¬ ((1 : Rat) - state_c2.lastKeyTime < cfg_demo.keyDebounceTime))
    ∧ ((5 / 4 : Rat) - 1 < cfg_demo.keyDebounceTime)
    ∧ on_volume_down cfg_demo (5 / 4) (on_volume_up cfg_demo 1 state_c2)
        = on_volume_up cfg_demo 1 state_c2 :=
  ⟨by norm_num [state_c2, cfg_demo],
   by norm_num [cfg_demo],
   (key_debounce_drops_events cfg_demo state_c2 1 (5 / 4)
      (by norm_num [state_c2, cfg_demo]) (by norm_num [cfg_demo])).2.1⟩

end P4Frame
